import Mathlib

/-!
Shallow embedding of `scripts/line_count/collect_loc_history.py`, the
incremental LOC-history collector of this repository.

Python strings are modelled as `List Char`: a Python `str` is a sequence of
code points, and the operations the script uses (`<`, `sorted`, `split`,
`strip`, `isdigit`, `startswith`, `int`) all work on code points.  Results
of the external subprocesses the script invokes (`git`, `tar`, `cloc`) are
inputs of the embedded functions, mirroring exactly how the script reads
their stdout and return codes.
-/

abbrev PyStr := List Char

/-- Python string comparison `s < t`: code-point lexicographic
(shorter string that is a proper initial segment compares smaller). -/
def pyStrLt : List Char → List Char → Bool
  | _, [] => false
  | [], _ :: _ => true
  | a :: as, b :: bs =>
    if a.toNat < b.toNat then true
    else if b.toNat < a.toNat then false
    else pyStrLt as bs

/-- Python `s <= t`, which for the total string order is `¬ (t < s)`;
this is the order `sorted` produces. -/
def pyLe (s t : PyStr) : Prop := pyStrLt t s = false

instance : DecidableRel pyLe := fun s t => by unfold pyLe; infer_instance

theorem pyStrLt_irrefl (s : PyStr) : pyStrLt s s = false := by
  induction s with
  | nil => rfl
  | cons a as ih => simp [pyStrLt, ih]

theorem pyStrLt_asymm : ∀ {s t : PyStr}, pyStrLt s t = true → pyStrLt t s = false := by
  intro s
  induction s with
  | nil => intro t _; cases t <;> rfl
  | cons a as ih =>
    intro t h
    cases t with
    | nil => simp [pyStrLt] at h
    | cons b bs =>
      simp only [pyStrLt] at h ⊢
      by_cases h1 : a.toNat < b.toNat
      · simp [h1, Nat.lt_asymm h1]
      · by_cases h2 : b.toNat < a.toNat
        · simp [h1, h2] at h
        · simp only [h1, h2, if_false] at h ⊢
          exact ih h

theorem pyStrLt_trans : ∀ {s t u : PyStr},
    pyStrLt s t = true → pyStrLt t u = true → pyStrLt s u = true := by
  intro s
  induction s with
  | nil =>
    intro t u _ htu
    cases u with
    | nil => cases t <;> simp [pyStrLt] at htu
    | cons c cs => rfl
  | cons a as ih =>
    intro t u hst htu
    cases t with
    | nil => simp [pyStrLt] at hst
    | cons b bs =>
      cases u with
      | nil => simp [pyStrLt] at htu
      | cons c cs =>
        simp only [pyStrLt] at hst htu ⊢
        by_cases h1 : a.toNat < b.toNat
        · by_cases h2 : b.toNat < c.toNat
          · simp [Nat.lt_trans h1 h2]
          · by_cases h3 : c.toNat < b.toNat
            · simp [h2, h3] at htu
            · have : b.toNat = c.toNat := Nat.le_antisymm (Nat.le_of_not_lt h3) (Nat.le_of_not_lt h2)
              simp [this ▸ h1]
        · by_cases h2 : b.toNat < a.toNat
          · simp [h1, h2] at hst
          · have hab : a.toNat = b.toNat := Nat.le_antisymm (Nat.le_of_not_lt h2) (Nat.le_of_not_lt h1)
            simp only [h1, h2, if_false] at hst
            by_cases h3 : b.toNat < c.toNat
            · simp [hab ▸ h3]
            · by_cases h4 : c.toNat < b.toNat
              · simp [h3, h4] at htu
              · simp only [h3, h4, if_false] at htu
                simp only [hab ▸ h3, hab ▸ h4, if_false]
                exact ih hst htu

theorem pyStrLt_trichotomy : ∀ (s t : PyStr),
    pyStrLt s t = true ∨ s = t ∨ pyStrLt t s = true := by
  intro s
  induction s with
  | nil =>
    intro t
    cases t with
    | nil => exact Or.inr (Or.inl rfl)
    | cons b bs => exact Or.inl rfl
  | cons a as ih =>
    intro t
    cases t with
    | nil => exact Or.inr (Or.inr rfl)
    | cons b bs =>
      by_cases h1 : a.toNat < b.toNat
      · exact Or.inl (by simp [pyStrLt, h1])
      · by_cases h2 : b.toNat < a.toNat
        · exact Or.inr (Or.inr (by simp [pyStrLt, h2]))
        · have hab : a = b := Char.eq_of_val_eq (by
            apply UInt32.ext
            exact Nat.le_antisymm (Nat.le_of_not_lt h2) (Nat.le_of_not_lt h1))
          subst hab
          rcases ih bs with h | h | h
          · exact Or.inl (by simp [pyStrLt, h])
          · exact Or.inr (Or.inl (by rw [h]))
          · exact Or.inr (Or.inr (by simp [pyStrLt, h]))

instance : IsTotal PyStr pyLe := by
  constructor
  intro s t
  by_cases h : pyStrLt t s = true
  · exact Or.inr (pyStrLt_asymm h)
  · exact Or.inl (Bool.eq_false_iff.mpr h)

instance : IsTrans PyStr pyLe := by
  constructor
  intro a b c hab hbc
  unfold pyLe at *
  rcases pyStrLt_trichotomy c a with h | h | h
  · rcases pyStrLt_trichotomy b c with h2 | h2 | h2
    · exact absurd (pyStrLt_trans h2 h) (by simp [hab])
    · subst h2; exact absurd h (by simp [hab])
    · exact absurd h2 (by simp [hbc])
  · rw [h]; exact pyStrLt_irrefl a
  · exact pyStrLt_asymm h

theorem pyStrLt_of_pyLe_of_ne {s t : PyStr} (hle : pyLe s t) (hne : s ≠ t) :
    pyStrLt s t = true := by
  rcases pyStrLt_trichotomy s t with h | h | h
  · exact h
  · exact absurd h hne
  · unfold pyLe at hle
    rw [hle] at h
    exact Bool.noConfusion h

theorem pyStrLt_nil {t : PyStr} (h : t ≠ []) : pyStrLt [] t = true := by
  cases t with
  | nil => exact absurd rfl h
  | cons c cs => rfl

theorem pyStrLt_nil_right (s : PyStr) : pyStrLt s [] = false := by
  cases s <;> rfl

/-- Python `s.split(sep)` for a one-character separator: `"".split(sep)`
is `[""]`, and every occurrence of the separator starts a new field. -/
def splitOnChar (c : Char) : List Char → List (List Char)
  | [] => [[]]
  | x :: xs =>
    match splitOnChar c xs with
    | [] => [[]]
    | g :: gs => if x = c then [] :: g :: gs else (x :: g) :: gs

/-- Python whitespace for `str.strip()`. -/
def isPySpace (c : Char) : Bool :=
  c = ' ' || c = '\t' || c = '\n' || c = '\r' || c = '\x0b' || c = '\x0c'

/-- Python `s.strip()`: removes leading and trailing whitespace. -/
def pyStrip (s : PyStr) : PyStr :=
  ((s.dropWhile isPySpace).reverse.dropWhile isPySpace).reverse

/-- Python `s.isdigit()` (restricted to ASCII, which is all the script
ever feeds it): nonempty and every character a decimal digit. -/
def pyIsDigit (s : PyStr) : Bool :=
  !s.isEmpty && s.all (fun c => 48 ≤ c.toNat && c.toNat ≤ 57)

/-- Python `int(s)` on a digit string. -/
def pyInt (s : PyStr) : Nat :=
  s.foldl (fun a c => 10 * a + (c.toNat - 48)) 0

/-- Python `s.startswith(p)`. -/
def pyStartsWith (p s : PyStr) : Bool := List.isPrefixOf p s

/-
## `run_cloc` — the Size Oracle Adapter

The script invokes `cloc <dir> --csv --quiet` and parses its CSV stdout.
`oracle = none` models the `subprocess.run` call raising (e.g. `cloc` not
installed): the `except Exception: pass` path.  `oracle = some out` is the
raw stdout.  `dirExists` is `directory.exists()`.
-/

structure SizeMetric where
  code : Nat
  comment : Nat
  blank : Nat
deriving DecidableEq, Repr

def zeroMetric : SizeMetric := ⟨0, 0, 0⟩

/-- Python `int(parts[i]) if parts[i].isdigit() else 0`. -/
def intFieldOrZero (s : PyStr) : Nat := if pyIsDigit s then pyInt s else 0

/-- The `for line in reversed(lines)` scan of `run_cloc`: first line that is
nonempty, does not start with `"files"`, and splits into at least five
comma-separated fields yields the metric; otherwise keep scanning, and
return all-zero if no line qualifies. -/
def clocScan : List PyStr → SizeMetric
  | [] => zeroMetric
  | l :: ls =>
    if l ≠ [] ∧ ¬ pyStartsWith "files".data l then
      let parts := splitOnChar ',' l
      if parts.length ≥ 5 then
        { blank := intFieldOrZero (parts.getD 2 [])
          comment := intFieldOrZero (parts.getD 3 [])
          code := intFieldOrZero (parts.getD 4 []) }
      else clocScan ls
    else clocScan ls

def run_cloc (dirExists : Bool) (oracle : Option PyStr) : SizeMetric :=
  if !dirExists then zeroMetric
  else
    match oracle with
    | none => zeroMetric
    | some out => clocScan (splitOnChar '\n' (pyStrip out)).reverse

/-
## `count_lines_simple` — the simplified internal counter

Defined in the script (docstring: "simple line count (backup)") but never
called from any other function in the file.  A directory is modelled as its
existence flag plus the list of regular files under it (`rglob`), each with
its Python `suffix`, whether `open` succeeds, and its lines.
-/

structure SrcFile where
  suffix : PyStr
  readOk : Bool
  lines : List PyStr

def clsExtensions : List PyStr :=
  [".ts".data, ".tsx".data, ".vue".data, ".js".data,
   ".jsx".data, ".rs".data, ".css".data, ".scss".data]

def count_lines_simple (dirExists : Bool) (files : List SrcFile) : Nat :=
  if !dirExists then 0
  else
    files.foldl
      (fun total f =>
        if f.suffix ∈ clsExtensions then
          if f.readOk then
            total + (f.lines.filter (fun l => pyStrip l ≠ [])).length
          else total
        else total)
      0

/-
## `collect_stats_for_commit` — extraction and measurement of one commit

For each of the two tracked subtrees the script runs
`git archive --format=tar <commit> -- <path>`, unpacks the tar into a fresh
temp directory, and measures with `run_cloc`.  A `SubtreeInput` bundles
what the script observes of those subprocesses: `archiveOk` is
`result.returncode == 0`, `archiveNonempty` is the truthiness of
`result.stdout`, `pathExists` is the `.exists()` check on the unpacked
path, and `clocOut` is the cloc stdout (`none` = the cloc invocation
raised).  `mkdtempFails` models `tempfile.mkdtemp` raising, `raisesBody`
any other exception inside the `try` block; both are caught by
`except Exception` which returns `None`.
-/

structure SubtreeInput where
  archiveOk : Bool
  archiveNonempty : Bool
  pathExists : Bool
  clocOut : Option PyStr

structure CommitStats where
  frontend : SizeMetric
  backend : SizeMetric
  total_code : Nat
deriving DecidableEq, Repr

/-- Stats for one subtree: the guarded extraction-then-measure sequence of
`collect_stats_for_commit` (stays zero unless the archive produced content
and the unpacked path exists). -/
def subtreeStats (s : SubtreeInput) : SizeMetric :=
  if s.archiveOk && s.archiveNonempty then
    if s.pathExists then run_cloc true s.clocOut else zeroMetric
  else zeroMetric

/-- Body of the `try` block: the result, whether `mkdtemp` ran
(`temp_dir` is not `None`), and whether the temp directory exists when the
body is left. -/
def collectBody (mkdtempFails raisesBody : Bool) (fe be : SubtreeInput) :
    Option CommitStats × Bool × Bool :=
  if mkdtempFails then (none, false, false)
  else if raisesBody then (none, true, true)
  else
    let frontend_stats := subtreeStats fe
    let backend_stats := subtreeStats be
    (some ⟨frontend_stats, backend_stats,
           frontend_stats.code + backend_stats.code⟩, true, true)

/-- The `finally` block: `if temp_dir and temp_dir.exists():
shutil.rmtree(temp_dir, ignore_errors=True)`.  `rmtreeOk` is whether the
removal succeeds: with `ignore_errors=True` a failed removal is swallowed
silently and the directory survives.  Returns whether the temp directory
still exists afterwards. -/
def finallyCleanup (rmtreeOk created dirAlive : Bool) : Bool :=
  if created && dirAlive then (if rmtreeOk then false else dirAlive)
  else dirAlive

/-- `collect_stats_for_commit`: result (`none` = an exception was caught)
paired with whether the disposable temp directory is left behind;
`rmtreeOk` models whether the best-effort `shutil.rmtree` in the `finally`
block succeeds. -/
def collect_stats_for_commit (mkdtempFails raisesBody rmtreeOk : Bool)
    (fe be : SubtreeInput) : Option CommitStats × Bool :=
  let (res, created, dirAlive) := collectBody mkdtempFails raisesBody fe be
  (res, finallyCleanup rmtreeOk created dirAlive)

/-
## Ledger and driver

`loc_history.csv` is modelled as a header plus its complete data rows (the
script always writes whole rows; `get_last_collected_date`'s
`len(lines) > 1` test is "at least one data row").  `Option LedgerFile`
distinguishes an absent file from an existing one.
-/

structure LedgerRow where
  day : PyStr
  frontend : SizeMetric
  backend : SizeMetric
  total_code : Nat
deriving DecidableEq, Repr

structure LedgerFile where
  rows : List LedgerRow
deriving DecidableEq, Repr

/-- `get_last_collected_date`: the first CSV field of the last line, i.e.
the day of the last row; `None` when the file is absent or header-only. -/
def get_last_collected_date : Option LedgerFile → Option PyStr
  | none => none
  | some f => f.rows.getLast?.map LedgerRow.day

/-- `get_all_dates`: `run_git(["log", "--all", "--format=%ad",
"--date=short"])` returns `(stdout.strip(), returncode == 0)`; the script
destructures it as `output, _`, discarding the success flag, then takes
`sorted(set(output.split("\n")))` and drops empty entries. -/
def get_all_dates (gitOut : PyStr) (_gitOk : Bool) : List PyStr :=
  let dates := List.insertionSort pyLe (splitOnChar '\n' gitOut).dedup
  dates.filter (fun d => d ≠ [])

/-- `get_commit_for_date`: `git log --all --format=%H --until="<date>
23:59:59" -1` — `return output if output else None`.  The selection of the
commit itself happens inside git; the embedding receives its stdout. -/
def get_commit_for_date (gitOut : PyStr) : Option PyStr :=
  if gitOut = [] then none else some gitOut

/-- What one loop iteration observes of its subprocesses: the resolver's
stdout for this day and the per-commit extraction/measurement inputs. -/
structure DayInput where
  resolverOut : PyStr
  mkdtempFails : Bool
  raisesBody : Bool
  rmtreeOk : Bool
  fe : SubtreeInput
  be : SubtreeInput

structure MainInput where
  force_full : Bool
  ledger : Option LedgerFile
  gitLogOut : PyStr
  gitOk : Bool
  perDay : PyStr → DayInput

/-- Python truthiness of an `Optional[str]`: `None` and `""` are falsy. -/
def strTruthy : Option PyStr → Bool
  | none => false
  | some s => !s.isEmpty

/-- The initialization phase of `main`: `last_collected = None if
force_full else get_last_collected_date()`, then the `if not
OUTPUT_FILE.exists() or force_full:` header (re)write which truncates the
file and resets `last_collected` to `None`.  Returns the on-disk rows after
initialization and the resume cutoff. -/
def initLedger (inp : MainInput) : LedgerFile × Option PyStr :=
  let last_collected := if inp.force_full then none
                        else get_last_collected_date inp.ledger
  if inp.ledger.isNone || inp.force_full then (⟨[]⟩, none)
  else (inp.ledger.getD ⟨[]⟩, last_collected)

/-- `dates_to_collect = [d for d in all_dates if not last_collected or
d > last_collected]`; Python `d > last_collected` is `last_collected < d`. -/
def datesToCollect (inp : MainInput) : List PyStr :=
  (get_all_dates inp.gitLogOut inp.gitOk).filter
    (fun d => !strTruthy (initLedger inp).2 ||
              pyStrLt ((initLedger inp).2.getD []) d)

/-- The per-day loop of `main`: `continue` when the resolver returns `None`
or `collect_stats_for_commit` returns `None`, otherwise `writerow` +
`flush` one row. -/
def collectLoop (perDay : PyStr → DayInput) : List PyStr → List LedgerRow
  | [] => []
  | d :: ds =>
    let di := perDay d
    match get_commit_for_date di.resolverOut with
    | none => collectLoop perDay ds
    | some _ =>
      match (collect_stats_for_commit di.mkdtempFails di.raisesBody
              di.rmtreeOk di.fe di.be).1 with
      | none => collectLoop perDay ds
      | some stats =>
        ⟨d, stats.frontend, stats.backend, stats.total_code⟩ ::
          collectLoop perDay ds

structure RunResult where
  ledger : LedgerFile
  appended : List LedgerRow
  exitCode : Nat
deriving DecidableEq, Repr

/-- `mainRun` embeds `main`: on the modelled paths the Python function always returns
normally, so the process exit code is 0 both on the early
"already up to date" return and after the loop; `sys.exit` is never
called. -/
def mainRun (inp : MainInput) : RunResult :=
  if (datesToCollect inp).isEmpty then ⟨(initLedger inp).1, [], 0⟩
  else
    ⟨⟨(initLedger inp).1.rows ++ collectLoop inp.perDay (datesToCollect inp)⟩,
     collectLoop inp.perDay (datesToCollect inp), 0⟩

/-! ## Helper lemmas about the enumerator, the loop, and the ledger -/

/-- The enumerated day list is strictly increasing in the Python string
order: `sorted` gives `≤`, `set` gives distinctness. -/
theorem get_all_dates_pairwise (out : PyStr) (ok : Bool) :
    (get_all_dates out ok).Pairwise (fun a b => pyStrLt a b = true) := by
  unfold get_all_dates
  apply List.Pairwise.filter
  have hsorted : List.Sorted pyLe
      (List.insertionSort pyLe (splitOnChar '\n' out).dedup) :=
    List.sorted_insertionSort pyLe _
  have hnodup : (List.insertionSort pyLe (splitOnChar '\n' out).dedup).Nodup :=
    (List.perm_insertionSort pyLe _).nodup_iff.mpr (List.nodup_dedup _)
  exact (List.Pairwise.and hsorted hnodup).imp
    (fun h => pyStrLt_of_pyLe_of_ne h.1 h.2)

theorem mem_get_all_dates_ne_nil {d : PyStr} {out : PyStr} {ok : Bool}
    (h : d ∈ get_all_dates out ok) : d ≠ [] := by
  unfold get_all_dates at h
  simpa using List.of_mem_filter h

/-- Every appended row's day is one of the iterated days. -/
theorem collectLoop_day_mem (perDay : PyStr → DayInput) :
    ∀ {ds : List PyStr} {r : LedgerRow}, r ∈ collectLoop perDay ds → r.day ∈ ds := by
  intro ds
  induction ds with
  | nil => intro r h; simp [collectLoop] at h
  | cons d ds ih =>
    intro r h
    rw [collectLoop] at h
    split at h
    · exact List.mem_cons_of_mem _ (ih h)
    · split at h
      · exact List.mem_cons_of_mem _ (ih h)
      · rcases List.mem_cons.mp h with rfl | hmem
        · exact List.mem_cons_self _ _
        · exact List.mem_cons_of_mem _ (ih hmem)

/-- The loop preserves strict day order: iterating a strictly increasing
day list yields rows with strictly increasing days. -/
theorem collectLoop_pairwise (perDay : PyStr → DayInput) :
    ∀ {ds : List PyStr}, ds.Pairwise (fun a b => pyStrLt a b = true) →
      (collectLoop perDay ds).Pairwise (fun r s => pyStrLt r.day s.day = true) := by
  intro ds
  induction ds with
  | nil => intro _; simp [collectLoop]
  | cons d ds ih =>
    intro h
    rcases List.pairwise_cons.mp h with ⟨hd, ht⟩
    rw [collectLoop]
    split
    · exact ih ht
    · split
      · exact ih ht
      · refine List.pairwise_cons.mpr ⟨?_, ih ht⟩
        intro s hs
        exact hd s.day (collectLoop_day_mem perDay hs)

theorem datesToCollect_pairwise (inp : MainInput) :
    (datesToCollect inp).Pairwise (fun a b => pyStrLt a b = true) := by
  unfold datesToCollect
  exact (get_all_dates_pairwise _ _).filter _

theorem mem_datesToCollect_ne_nil {inp : MainInput} {d : PyStr}
    (h : d ∈ datesToCollect inp) : d ≠ [] :=
  mem_get_all_dates_ne_nil (List.mem_of_mem_filter h)

/-- In a strictly increasing row list every row is the last row or has a
strictly smaller day. -/
theorem pairwise_day_getLast {rows : List LedgerRow}
    (h : rows.Pairwise (fun a b => pyStrLt a.day b.day = true))
    {x : LedgerRow} (hx : rows.getLast? = some x) :
    ∀ r ∈ rows, r = x ∨ pyStrLt r.day x.day = true := by
  induction rows with
  | nil => exact absurd hx (by simp)
  | cons a tail ih =>
    rcases List.pairwise_cons.mp h with ⟨ha, ht⟩
    cases tail with
    | nil =>
      intro r hr
      rcases List.mem_singleton.mp hr with rfl
      simp only [List.getLast?_singleton, Option.some.injEq] at hx
      exact Or.inl hx
    | cons b t =>
      rw [List.getLast?_cons_cons] at hx
      intro r hr
      rcases List.mem_cons.mp hr with rfl | hmem
      · exact Or.inr (ha x (List.mem_of_mem_getLast? hx))
      · exact ih ht hx r hmem

theorem mainRun_appended_sub (inp : MainInput) :
    ∀ r ∈ (mainRun inp).appended, r.day ∈ datesToCollect inp := by
  intro r h
  unfold mainRun at h
  split at h
  · simp at h
  · exact collectLoop_day_mem inp.perDay h

theorem initLedger_snd_of_last {inp : MainInput} {D : PyStr}
    (hff : inp.force_full = false)
    (hD : get_last_collected_date inp.ledger = some D) :
    (initLedger inp).2 = some D := by
  unfold initLedger
  rw [hff]
  cases hL : inp.ledger with
  | none => rw [hL] at hD; simp [get_last_collected_date] at hD
  | some f =>
    rw [hL] at hD
    simp [hD]

theorem initLedger_snd_of_none {inp : MainInput}
    (hff : inp.force_full = false)
    (hnone : get_last_collected_date inp.ledger = none) :
    (initLedger inp).2 = none := by
  unfold initLedger
  rw [hff]
  cases hL : inp.ledger with
  | none => simp
  | some f =>
    rw [hL] at hnone
    simp [hnone]

/-- Claim C1 (resume correctness): in a non-forced-full run, when the
ledger's last row has day `D` (a nonempty day string), every appended row
has a day strictly greater than `D` in the Python string order, however
many days history contains; and when the ledger has no last row (absent or
header-only), the filtered day list is the whole enumerated day list, so
all enumerated days are collected. -/
theorem resume_correctness (inp : MainInput) (hff : inp.force_full = false) :
    (∀ D, get_last_collected_date inp.ledger = some D → D ≠ [] →
      ∀ r ∈ (mainRun inp).appended, pyStrLt D r.day = true)
    ∧ (get_last_collected_date inp.ledger = none →
      datesToCollect inp = get_all_dates inp.gitLogOut inp.gitOk) := by
  constructor
  · intro D hD hDne r hr
    have hmem := mainRun_appended_sub inp r hr
    unfold datesToCollect at hmem
    rw [initLedger_snd_of_last hff hD] at hmem
    have hcond := List.of_mem_filter hmem
    simp only [strTruthy, Option.getD_some] at hcond
    cases hE : D.isEmpty with
    | true => exact absurd (List.isEmpty_iff.mp hE) hDne
    | false =>
      rw [hE] at hcond
      simpa using hcond
  · intro hnone
    unfold datesToCollect
    rw [initLedger_snd_of_none hff hnone]
    apply List.filter_eq_self.mpr
    intro d _
    simp [strTruthy]

def sampleSub : SubtreeInput :=
  ⟨true, true, true,
   some "files,language,blank,comment,code\n2,TypeScript,10,20,100".data⟩

def sampleDay : DayInput :=
  ⟨"abc123".data, false, false, true, sampleSub, sampleSub⟩

def w1aInp : MainInput :=
  { force_full := false
    ledger := some ⟨[⟨"2024-01-02".data, zeroMetric, zeroMetric, 0⟩]⟩
    gitLogOut := "2024-01-01\n2024-01-03".data
    gitOk := true
    perDay := fun _ => sampleDay }

def w1bInp : MainInput :=
  { force_full := false
    ledger := none
    gitLogOut := "2024-01-01\n2024-01-03".data
    gitOk := true
    perDay := fun _ => sampleDay }

/-- Concrete instantiation of the resume-correctness theorem: a ledger
ending at 2024-01-02 and an absent ledger. -/
theorem resume_correctness_witness :
    (∀ r ∈ (mainRun w1aInp).appended, pyStrLt "2024-01-02".data r.day = true)
    ∧ datesToCollect w1bInp = get_all_dates w1bInp.gitLogOut w1bInp.gitOk :=
  ⟨(resume_correctness w1aInp rfl).1 "2024-01-02".data rfl (by decide),
   (resume_correctness w1bInp rfl).2 rfl⟩

theorem init_rows_eq {inp : MainInput} {f : LedgerFile}
    (hL : inp.ledger = some f) (hff : inp.force_full = false) :
    initLedger inp = (f, get_last_collected_date (some f)) := by
  unfold initLedger
  rw [hL, hff]
  simp

theorem init_rows_nil {inp : MainInput}
    (h : inp.ledger = none ∨ inp.force_full = true) :
    (initLedger inp).1.rows = [] := by
  unfold initLedger
  rcases h with h | h <;> simp [h]

/-- Claim C2 (monotonic keys): a run starting from a ledger whose rows are
strictly increasing by day leaves the ledger with strictly increasing
adjacent days — no duplicates, ascending append order. -/
theorem monotonic_keys (inp : MainInput)
    (h : ∀ f, inp.ledger = some f →
      f.rows.Pairwise (fun a b => pyStrLt a.day b.day = true)) :
    ((mainRun inp).ledger.rows).Pairwise
      (fun a b => pyStrLt a.day b.day = true) := by
  have hinit : (initLedger inp).1.rows.Pairwise
      (fun a b => pyStrLt a.day b.day = true) := by
    cases hL : inp.ledger with
    | none => rw [init_rows_nil (Or.inl hL)]; exact List.Pairwise.nil
    | some f =>
      cases hff : inp.force_full with
      | true => rw [init_rows_nil (Or.inr hff)]; exact List.Pairwise.nil
      | false => rw [init_rows_eq hL hff]; exact h f hL
  unfold mainRun
  split
  · exact hinit
  · rw [List.pairwise_append]
    refine ⟨hinit, collectLoop_pairwise _ (datesToCollect_pairwise inp), ?_⟩
    intro a ha b hb
    have hbd : b.day ∈ datesToCollect inp := collectLoop_day_mem inp.perDay hb
    have hbne : b.day ≠ [] := mem_datesToCollect_ne_nil hbd
    cases hL : inp.ledger with
    | none => rw [init_rows_nil (Or.inl hL)] at ha; simp at ha
    | some f =>
      cases hff : inp.force_full with
      | true => rw [init_rows_nil (Or.inr hff)] at ha; simp at ha
      | false =>
        rw [init_rows_eq hL hff] at ha
        have ha2 : a ∈ f.rows := ha
        have hpf := h f hL
        cases hx : f.rows.getLast? with
        | none =>
          rw [List.getLast?_eq_none_iff] at hx
          rw [hx] at ha2
          simp at ha2
        | some x =>
          have hcut : (initLedger inp).2 = some x.day := by
            rw [init_rows_eq hL hff]
            simp [get_last_collected_date, hx]
          have hcond := List.of_mem_filter hbd
          rw [hcut] at hcond
          by_cases hxe : x.day = []
          · rcases pairwise_day_getLast hpf hx a ha2 with h1 | h1
            · rw [h1, hxe]
              exact pyStrLt_nil hbne
            · rw [hxe, pyStrLt_nil_right] at h1
              exact Bool.noConfusion h1
          · have hx2 : pyStrLt x.day b.day = true := by
              simpa [strTruthy, List.isEmpty_iff, hxe] using hcond
            rcases pairwise_day_getLast hpf hx a ha2 with h1 | h1
            · rw [h1]; exact hx2
            · exact pyStrLt_trans h1 hx2

def w2Inp : MainInput :=
  { force_full := false
    ledger := some ⟨[⟨"2024-01-01".data, zeroMetric, zeroMetric, 0⟩,
                     ⟨"2024-01-02".data, zeroMetric, zeroMetric, 0⟩]⟩
    gitLogOut := "2024-01-04\n2024-01-03".data
    gitOk := true
    perDay := fun _ => sampleDay }

/-- Concrete instantiation of the monotonic-keys theorem: a two-row ledger
plus two newly collected days. -/
theorem monotonic_keys_witness :
    ((mainRun w2Inp).ledger.rows).Pairwise
      (fun a b => pyStrLt a.day b.day = true) :=
  monotonic_keys w2Inp (by
    intro f hf
    injection hf with h2
    subst h2
    decide)

def c3Inp : MainInput :=
  { force_full := false
    ledger := some ⟨[⟨"2024-01-01".data, zeroMetric, zeroMetric, 0⟩]⟩
    gitLogOut := []
    gitOk := false
    perDay := fun _ => sampleDay }

/-- Claim C3 counterexample: with the history backend unreachable (the
history-listing git call fails: nonzero status, empty stdout), the run
does not exit with a non-zero code.  It appends nothing and exits 0 —
indistinguishable from the legitimate zero-rows-to-collect case. -/
theorem unreachable_backend_exit_zero :
    (mainRun c3Inp).exitCode = 0 ∧ (mainRun c3Inp).appended = [] := by
  constructor <;> rfl

/-- Claim C3 amended: if the history-listing query fails, `get_all_dates`
discards the failure status (`output, _ = run_git(...)`) and an empty
stdout yields an empty day list, so the run appends nothing and finishes
with exit code 0, the same exit code as the legitimate
zero-rows-to-collect case. -/
theorem unreachable_backend_amended (inp : MainInput)
    (hout : inp.gitLogOut = []) (_hok : inp.gitOk = false) :
    get_all_dates inp.gitLogOut inp.gitOk = [] ∧
    (mainRun inp).appended = [] ∧ (mainRun inp).exitCode = 0 := by
  have hd : get_all_dates inp.gitLogOut inp.gitOk = [] := by
    rw [hout]
    rfl
  have he : datesToCollect inp = [] := by
    unfold datesToCollect
    rw [hd]
    rfl
  have hm : mainRun inp = ⟨(initLedger inp).1, [], 0⟩ := by
    unfold mainRun
    rw [he]
    rfl
  exact ⟨hd, by rw [hm], by rw [hm]⟩

/-- Concrete instantiation of the amended C3 theorem at the unreachable
backend input. -/
theorem unreachable_backend_amended_witness :
    c3Inp.gitLogOut = [] ∧ c3Inp.gitOk = false ∧
    (get_all_dates c3Inp.gitLogOut c3Inp.gitOk = [] ∧
     (mainRun c3Inp).appended = [] ∧ (mainRun c3Inp).exitCode = 0) :=
  ⟨rfl, rfl, unreachable_backend_amended c3Inp rfl rfl⟩

def c4File : SrcFile :=
  ⟨".ts".data, true,
   ["let x = 1".data, "  ".data, "export x".data, "y".data]⟩

/-- Claim C4 (code defect): when the oracle invocation raises (`cloc`
unavailable), `run_cloc` returns exactly the all-zero metric; the
simplified internal counter `count_lines_simple` — which on a directory
holding one recognized `.ts` file with three non-blank lines would report
3 — is defined in the script but never called from any other function, so
no fallback happens.  The same all-zero result arises when the oracle's
output is unparsable (no qualifying CSV line). -/
theorem cloc_unavailable_no_fallback :
    run_cloc true none = zeroMetric ∧
    run_cloc true (some "garbage output".data) = zeroMetric ∧
    count_lines_simple true [c4File] = 3 := by
  refine ⟨rfl, by decide, by decide⟩

def c5Inp : MainInput :=
  { force_full := false
    ledger := none
    gitLogOut := "2024-01-01\n2024-01-02".data
    gitOk := true
    perDay := fun d => if d = "2024-01-01".data
                       then { sampleDay with resolverOut := [] }
                       else sampleDay }

/-- Claim C5 counterexample: day 2024-01-01 is enumerated and its resolver
returns none (a per-day sub-failure), yet no row at all — degraded or
otherwise — is appended for it; the run appends only the 2024-01-02 row. -/
theorem resolver_none_day_skipped :
    (mainRun c5Inp).appended.map LedgerRow.day = ["2024-01-02".data] ∧
    (mainRun c5Inp).appended.all (fun r => r.day ≠ "2024-01-01".data) = true := by
  constructor <;> decide

/-- Claim C5 amended: per-day sub-failures never abort the run, but they
fall in two classes: when the resolver returns none for the day, or the
per-commit step returns `None` (an exception was caught), the day is
skipped with no row appended and the loop continues with the remaining
days; when a subtree's oracle invocation fails, the affected metric is
degraded to zero inside a row that is still appended. -/
theorem per_day_failures_nonfatal (perDay : PyStr → DayInput)
    (d : PyStr) (ds : List PyStr) :
    (get_commit_for_date (perDay d).resolverOut = none →
      collectLoop perDay (d :: ds) = collectLoop perDay ds)
    ∧ ((collect_stats_for_commit (perDay d).mkdtempFails (perDay d).raisesBody
        (perDay d).rmtreeOk (perDay d).fe (perDay d).be).1 = none →
      collectLoop perDay (d :: ds) = collectLoop perDay ds)
    ∧ (∀ c, get_commit_for_date (perDay d).resolverOut = some c →
      (perDay d).mkdtempFails = false → (perDay d).raisesBody = false →
      (perDay d).fe.clocOut = none →
      collectLoop perDay (d :: ds) =
        ⟨d, zeroMetric, subtreeStats (perDay d).be,
         (subtreeStats (perDay d).be).code⟩ :: collectLoop perDay ds) := by
  refine ⟨?_, ?_, ?_⟩
  · intro h
    simp [collectLoop, h]
  · intro h
    cases hres : get_commit_for_date (perDay d).resolverOut with
    | none => simp [collectLoop, hres]
    | some c => simp [collectLoop, hres, h]
  · intro c hres hmk hrb hfe
    have hstats : (collect_stats_for_commit (perDay d).mkdtempFails
        (perDay d).raisesBody (perDay d).rmtreeOk (perDay d).fe (perDay d).be).1 =
        some ⟨subtreeStats (perDay d).fe, subtreeStats (perDay d).be,
              (subtreeStats (perDay d).fe).code +
                (subtreeStats (perDay d).be).code⟩ := by
      rw [hmk, hrb]
      rfl
    have hfz : subtreeStats (perDay d).fe = zeroMetric := by
      unfold subtreeStats
      split
      · split
        · rw [hfe]
          rfl
        · rfl
      · rfl
    simp [collectLoop, hres, hstats, hfz, zeroMetric]

def w5ResolverNone : PyStr → DayInput :=
  fun _ => { sampleDay with resolverOut := [] }

def w5OracleFail : PyStr → DayInput :=
  fun _ => { sampleDay with fe := { sampleSub with clocOut := none } }

/-- Concrete instantiation of the amended C5 theorem: a resolver-none day
is skipped, and an oracle-failure day still yields a row with a zero
frontend metric. -/
theorem per_day_failures_nonfatal_witness :
    (collectLoop w5ResolverNone ["2024-01-01".data, "2024-01-02".data] =
      collectLoop w5ResolverNone ["2024-01-02".data])
    ∧ (collectLoop w5OracleFail ["2024-01-05".data] =
      ⟨"2024-01-05".data, zeroMetric,
       subtreeStats (w5OracleFail "2024-01-05".data).be,
       (subtreeStats (w5OracleFail "2024-01-05".data).be).code⟩ ::
        collectLoop w5OracleFail []) :=
  ⟨(per_day_failures_nonfatal w5ResolverNone "2024-01-01".data
      ["2024-01-02".data]).1 rfl,
   (per_day_failures_nonfatal w5OracleFail "2024-01-05".data []).2.2
      "abc123".data rfl rfl rfl rfl⟩

/-- Claim C8 (subtree-absence policy): when the extraction reports a
tracked subtree absent from the commit (the archive call fails or yields
no content — git archive exits nonzero for a pathspec that matches
nothing — or the unpacked path is missing), the assembled row carries
exactly the all-zero metric for that subtree, the other subtree is
measured normally, and the step still returns a row rather than an error;
`run_cloc` likewise maps a non-existing directory to all-zero. -/
theorem subtree_absent_zero (fe be : SubtreeInput) (rok : Bool)
    (habs : fe.archiveOk = false ∨ fe.archiveNonempty = false ∨
            fe.pathExists = false) :
    (collect_stats_for_commit false false rok fe be).1 =
      some ⟨zeroMetric, subtreeStats be, (subtreeStats be).code⟩
    ∧ (∀ o, run_cloc false o = zeroMetric) := by
  have hfz : subtreeStats fe = zeroMetric := by
    unfold subtreeStats
    rcases habs with h | h | h
    · simp [h]
    · simp [h]
    · simp [h]
  constructor
  · have hr : (collect_stats_for_commit false false rok fe be).1 =
        some ⟨subtreeStats fe, subtreeStats be,
              (subtreeStats fe).code + (subtreeStats be).code⟩ := rfl
    rw [hr, hfz]
    simp [zeroMetric]
  · intro o
    rfl

def w8Sub : SubtreeInput := ⟨false, false, false, none⟩

/-- Concrete instantiation of the subtree-absence theorem: the frontend
archive call failed (path absent at the commit). -/
theorem subtree_absent_zero_witness :
    ((collect_stats_for_commit false false true w8Sub sampleSub).1 =
      some ⟨zeroMetric, subtreeStats sampleSub, (subtreeStats sampleSub).code⟩)
    ∧ (∀ o, run_cloc false o = zeroMetric) :=
  subtree_absent_zero w8Sub sampleSub true (Or.inl rfl)

/-- Claim C9 counterexample: the cleanup is
`shutil.rmtree(temp_dir, ignore_errors=True)` — when the removal itself
fails, the failure is swallowed and the disposable directory survives the
step, so "removed on every exit path" is false on the code even for a
normal return. -/
theorem rmtree_failure_leaks_tempdir :
    (collect_stats_for_commit false false false sampleSub sampleSub).2 = true :=
  rfl

/-- Claim C9 amended (scoped snapshot cleanup, best effort): on every exit
path of the per-commit step — normal return, partial extraction, or an
exception caught anywhere in the `try` body — the `finally` block attempts
removal of the disposable directory whenever it was created; whenever the
removal succeeds, the directory is gone before control returns to the
driver, and a directory can survive only through a failed `rmtree`
(swallowed by `ignore_errors=True`), never through a skipped cleanup. -/
theorem snapshot_cleanup_best_effort (mkdtempFails raisesBody rmtreeOk : Bool)
    (fe be : SubtreeInput) :
    (rmtreeOk = true →
      (collect_stats_for_commit mkdtempFails raisesBody rmtreeOk fe be).2 = false)
    ∧ ((collect_stats_for_commit mkdtempFails raisesBody rmtreeOk fe be).2 = true ↔
      mkdtempFails = false ∧ rmtreeOk = false) := by
  refine ⟨?_, ?_⟩ <;> cases mkdtempFails <;> cases raisesBody <;>
    cases rmtreeOk <;>
    simp [collect_stats_for_commit, collectBody, finallyCleanup]

/-- Concrete instantiation of the best-effort cleanup theorem: a caught
exception with a succeeding `rmtree` leaves no directory behind, and the
survival characterization at the same exit path. -/
theorem snapshot_cleanup_best_effort_witness :
    ((collect_stats_for_commit false true true sampleSub sampleSub).2 = false)
    ∧ ((collect_stats_for_commit false true true sampleSub sampleSub).2 = true ↔
      false = false ∧ true = false) :=
  ⟨(snapshot_cleanup_best_effort false true true sampleSub sampleSub).1 rfl,
   (snapshot_cleanup_best_effort false true true sampleSub sampleSub).2⟩

/-
## Day strings: `YYYY-MM-DD`

`git log --date=short` hands the script days in the fixed `YYYY-MM-DD`
format; the enumerator sorts these strings (`sorted`), and `main` filters
with the string comparison `d > last_collected`.  `mkDateString` builds
the format; `chronoLt` is the chronological order on (year, month, day).
-/

def digitChar (n : Nat) : Char := Char.ofNat (48 + n)

def pad2 (n : Nat) : PyStr := [digitChar (n / 10 % 10), digitChar (n % 10)]

def pad4 (n : Nat) : PyStr :=
  [digitChar (n / 1000 % 10), digitChar (n / 100 % 10),
   digitChar (n / 10 % 10), digitChar (n % 10)]

def mkDateString (y m d : Nat) : PyStr :=
  pad4 y ++ '-' :: (pad2 m ++ '-' :: pad2 d)

def chronoLt (y1 m1 d1 y2 m2 d2 : Nat) : Prop :=
  y1 < y2 ∨ (y1 = y2 ∧ (m1 < m2 ∨ (m1 = m2 ∧ d1 < d2)))

theorem digitChar_toNat (n : Nat) : (digitChar (n % 10)).toNat = 48 + n % 10 := by
  have h : ∀ k, k < 10 → (digitChar k).toNat = 48 + k := by decide
  exact h _ (Nat.mod_lt _ (by norm_num))

/-- Claim C10 (implicit): day ordering is implemented purely as string
operations — the enumerator sorts the day strings and the resume filter
compares them with the Python string `>` (both via `pyStrLt`, which the
enumerated list is strictly increasing under) — and on the fixed
`YYYY-MM-DD` format this code-point-lexicographic order coincides exactly
with chronological order. -/
theorem date_string_order_chronological (y1 m1 d1 y2 m2 d2 : Nat)
    (hy1 : y1 < 10000) (hy2 : y2 < 10000) (hm1 : m1 < 100) (hm2 : m2 < 100)
    (hd1 : d1 < 100) (hd2 : d2 < 100) :
    (pyStrLt (mkDateString y1 m1 d1) (mkDateString y2 m2 d2) = true ↔
      chronoLt y1 m1 d1 y2 m2 d2)
    ∧ ∀ out ok, (get_all_dates out ok).Pairwise
        (fun a b => pyStrLt a b = true) := by
  constructor
  · unfold mkDateString pad4 pad2 chronoLt
    simp only [List.cons_append, List.nil_append]
    simp only [pyStrLt, digitChar_toNat]
    norm_num
    have ha1 : y1 / 100 / 10 = y1 / 1000 := by
      rw [Nat.div_div_eq_div_mul]
    have ha2 : y2 / 100 / 10 = y2 / 1000 := by
      rw [Nat.div_div_eq_div_mul]
    have hb1 : y1 / 10 / 10 = y1 / 100 := by
      rw [Nat.div_div_eq_div_mul]
    have hb2 : y2 / 10 / 10 = y2 / 100 := by
      rw [Nat.div_div_eq_div_mul]
    have hc1 : y1 / 1000 % 10 = y1 / 1000 := Nat.mod_eq_of_lt (by omega)
    have hc2 : y2 / 1000 % 10 = y2 / 1000 := Nat.mod_eq_of_lt (by omega)
    have hm1e : m1 / 10 % 10 = m1 / 10 := Nat.mod_eq_of_lt (by omega)
    have hm2e : m2 / 10 % 10 = m2 / 10 := Nat.mod_eq_of_lt (by omega)
    have hd1e : d1 / 10 % 10 = d1 / 10 := Nat.mod_eq_of_lt (by omega)
    have hd2e : d2 / 10 % 10 = d2 / 10 := Nat.mod_eq_of_lt (by omega)
    omega
  · exact fun out ok => get_all_dates_pairwise out ok

/-- Concrete instantiation of the date-order theorem at 2024-01-02 versus
2024-01-03. -/
theorem date_string_order_chronological_witness :
    (2024 < 10000 ∧ 1 < 100 ∧ 2 < 100 ∧ 3 < 100) ∧
    ((pyStrLt (mkDateString 2024 1 2) (mkDateString 2024 1 3) = true ↔
       chronoLt 2024 1 2 2024 1 3)
     ∧ ∀ out ok, (get_all_dates out ok).Pairwise
         (fun a b => pyStrLt a b = true)) :=
  ⟨by decide,
   date_string_order_chronological 2024 1 2 2024 1 3
     (by decide) (by decide) (by decide) (by decide) (by decide) (by decide)⟩
